import Mathlib

/-!
Verification of the peer-to-peer message network simulator.

The repository holds two Go variants of the same design:
a line-text variant (src/mp1.go, embedded in namespace MP1) and a
gob-encoded variant (src/unnamed/part_000, embedded in namespace Gob).
Strings are modelled as lists of characters; the Go standard library
functions the code calls (strings.Split, strings.TrimPrefix,
strings.Join, strconv.Itoa, strconv.Atoi, bufio.ScanLines, rand.Intn)
are embedded below with their documented semantics.
-/

/-- Model of Go strings.Split with a one-character separator:
splits around each occurrence of sep; always returns at least one
(possibly empty) piece. -/
def splitOnChar (sep : Char) : List Char → List (List Char)
  | [] => [[]]
  | c :: rest =>
    if c = sep then [] :: splitOnChar sep rest
    else
      match splitOnChar sep rest with
      | [] => [[c]]
      | t :: ts => (c :: t) :: ts

/-- Model of the dropCR step of bufio.ScanLines: removes one trailing
carriage return, if present. -/
def dropCR (cs : List Char) : List Char :=
  if cs.getLast? = some '\r' then cs.dropLast else cs

/-- Model of repeatedly scanning a whole byte stream with a
bufio.Scanner using ScanLines: tokens are the newline-separated pieces,
each with a trailing carriage return stripped; a final piece after the
last newline is returned only when nonempty (EOF with no data yields no
token). -/
def scanLines (cs : List Char) : List (List Char) :=
  let parts := splitOnChar '\n' cs
  (if parts.getLast? = some [] then parts.dropLast else parts).map dropCR

/-- Model of Go strings.TrimPrefix. -/
def trimPrefix (s p : List Char) : List Char :=
  if p.isPrefixOf s then s.drop p.length else s

/-- Model of Go strings.Join with separator a single space. -/
def joinSpace : List (List Char) → List Char
  | [] => []
  | [x] => x
  | x :: xs => x ++ ' ' :: joinSpace xs

/-- Decimal digit character for a value below ten. -/
def digitChar (d : Nat) : Char :=
  Char.ofNat (48 + d)

/-- Decimal digits of n, most significant first, with fuel bounding the
recursion depth; any fuel above n yields the same digits. -/
def natToDigitsAux : Nat → Nat → List Char
  | 0, _ => []
  | fuel + 1, n =>
    if n < 10 then [digitChar n]
    else natToDigitsAux fuel (n / 10) ++ [digitChar (n % 10)]

/-- Decimal digits of a natural number, most significant first. -/
def natToDigits (n : Nat) : List Char :=
  natToDigitsAux (n + 1) n

/-- Model of Go strconv.Itoa on a (signed) integer. -/
def itoa : Int → List Char
  | Int.ofNat n => natToDigits n
  | Int.negSucc n => '-' :: natToDigits (n + 1)

/-- Numeric value of a decimal digit character, none for other
characters. -/
def digToNat (c : Char) : Option Nat :=
  if '0' ≤ c ∧ c ≤ '9' then some (c.toNat - 48) else none

/-- Accumulating decimal parse; fails on the first non-digit. -/
def parseNatCore : List Char → Nat → Option Nat
  | [], acc => some acc
  | c :: cs, acc =>
    match digToNat c with
    | some d => parseNatCore cs (acc * 10 + d)
    | none => none

/-- Decimal parse of a nonempty all-digit string. -/
def parseNat (cs : List Char) : Option Nat :=
  match cs with
  | [] => none
  | _ => parseNatCore cs 0

/-- Model of Go strconv.Atoi: optional sign, then a nonempty run of
decimal digits; anything else is an error (none). -/
def atoi : List Char → Option Int
  | [] => none
  | c :: rest =>
    if c = '-' then (parseNat rest).map (fun n => -(n : Int))
    else if c = '+' then (parseNat rest).map (fun n => (n : Int))
    else (parseNat (c :: rest)).map (fun n => (n : Int))

/-- Model of the Go idiom `v, _ := strconv.Atoi(s)`: the parse error is
discarded and the zero value is kept. -/
def atoiOrZero (cs : List Char) : Int :=
  (atoi cs).getD 0

/-- One process entry of the topology (struct Process of both Go
files): unique id, IP address and port. -/
structure Process where
  ID : Int
  IP : List Char
  Port : List Char
deriving DecidableEq

/-- The parsed configuration (struct Config of both Go files). -/
structure Config where
  MinDelay : Int
  MaxDelay : Int
  Processes : List Process
deriving DecidableEq

/-- First line of the configuration file as parsed by ParseConfig:
split on spaces, take fields 0 and 1 through the error-discarding Atoi.
Accessing a missing field is a Go index-out-of-range panic, modelled as
none. -/
def parseDelayLine (line : List Char) : Option (Int × Int) :=
  match splitOnChar ' ' line with
  | a :: b :: _ => some (atoiOrZero a, atoiOrZero b)
  | _ => none

/-- One process line of the configuration file as parsed by
ParseConfig: fields 0, 1, 2 of the space-split line; the id goes
through the error-discarding Atoi. A missing field is a panic (none). -/
def parseProcessLine (line : List Char) : Option Process :=
  match splitOnChar ' ' line with
  | a :: b :: c :: _ => some ⟨atoiOrZero a, b, c⟩
  | _ => none

/-- Model of ParseConfig (identical in both Go files) applied to the
raw contents of a readable configuration file. The scanner semantics
are those of bufio.ScanLines; a missing first line is read as the empty
string. The result is none exactly when the Go code panics with an
index-out-of-range error; parse failures of individual integer fields
are discarded, never reported. -/
def ParseConfig (content : List Char) : Option Config :=
  let lines := scanLines content
  match parseDelayLine (lines.headD []) with
  | none => none
  | some (minDelay, maxDelay) =>
    ((lines.drop 1).mapM parseProcessLine).map
      (fun ps => ⟨minDelay, maxDelay, ps⟩)

/-- Model of math/rand.Intn: a value uniformly drawn from [0, n) when
n is positive, a runtime panic (none) when n is not positive. The draw
itself is abstracted by the seed parameter; any model of Intn maps the
seed into [0, n). -/
def randIntn (n : Int) (seed : Nat) : Option Int :=
  if n ≤ 0 then none else some ((seed : Int) % n)

/-- The delay computation of both handleUserInput variants:
minDelay + rand.Intn(maxDelay-minDelay), in milliseconds. none models
the rand.Intn panic on an empty range. -/
def drawDelay (minDelay maxDelay : Int) (seed : Nat) : Option Int :=
  (randIntn (maxDelay - minDelay) seed).map (fun r => minDelay + r)

/-- One write performed on an established connection: either the
identifying handshake line of the initiator or one message record. -/
inductive WireWrite where
  | handshakeLine (id : Int)
  | record (sourceID : Int) (message : List Char)
deriving DecidableEq

namespace MP1

/-- Bytes written by unicast_send of mp1.go: the decimal sender id, one
space, the message, and the newline appended by fmt.Fprintln. -/
def unicast_send (processID : Int) (message : List Char) : List Char :=
  itoa processID ++ ' ' :: message ++ ['\n']

/-- Decoding of one scanned line inside unicast_receive of mp1.go: the
sender id is the first space-separated field and the message is the
line with the sender id and one space trimmed from the front. -/
def decodeLine (line : List Char) : List Char × List Char :=
  let senderID := (splitOnChar ' ' line).headD []
  (senderID, trimPrefix line (senderID ++ [' ']))

/-- Model of unicast_receive of mp1.go run over a whole byte stream:
every scanned line is decoded into a (senderID, message) pair. -/
def unicast_receive (stream : List Char) : List (List Char × List Char) :=
  (scanLines stream).map decodeLine

/-- Model of getOtherID of mp1.go: scan the first line of the inbound
stream and parse it with Atoi; a parse failure is a fatal error
(none). -/
def getOtherID (stream : List Char) : Option Int :=
  atoi ((scanLines stream).headD [])

/-- The ids that the startProcess of mp1.go dials from process p: every
other process of the topology whose id is lower than the id of p. -/
def dialTargets (p : Process) (c : Config) : List Int :=
  (c.Processes.filter (fun q => q.ID < p.ID)).map (fun q => q.ID)

/-- All ordered (initiator id, acceptor id) dial pairs performed
system-wide when every process of the topology runs the startProcess of
mp1.go; each dial creates exactly one TCP connection, used for both
directions of traffic of that pair. -/
def dials (c : Config) : List (Int × Int) :=
  c.Processes.flatMap (fun p => (dialTargets p c).map (fun q => (p.ID, q)))

/-- Keys of the connections map of process p in the startProcess of
mp1.go once mesh establishment has completed: the lower ids it dialed
plus the higher ids whose dials it accepted (learned through the
getOtherID handshake). -/
def localConnIDs (p : Process) (c : Config) : List Int :=
  (c.Processes.filter (fun q => q.ID < p.ID)).map (fun q => q.ID) ++
    (c.Processes.filter (fun q => p.ID < q.ID)).map (fun q => q.ID)

/-- Sequence of writes performed by the mp1.go initiator on one dialed
connection during its lifetime: first the handshake line written by
fmt.Fprintln(conn, process.ID) inside startProcess, then each record
that handleUserInput later sends. -/
def connectionTrace (selfID : Int) (messages : List (List Char)) :
    List WireWrite :=
  WireWrite.handshakeLine selfID :: messages.map (WireWrite.record selfID)

/-- The bytes of one write of the mp1.go variant. -/
def wireBytes : WireWrite → List Char
  | WireWrite.handshakeLine id => itoa id ++ ['\n']
  | WireWrite.record sourceID message => unicast_send sourceID message

/-- Model of the single dial of the mp1.go startProcess client loop:
one attempt whose outcome is outcome 0, one Dial call, no backoff
sleeps. A failure is immediately fatal (log.Fatal), never retried. -/
def dialOnce (outcome : Nat → Bool) : Bool × Nat × List Nat :=
  (outcome 0, 1, [])

/-- The console word starting a send command. -/
def sendWord : List Char := ['s', 'e', 'n', 'd']

/-- Error line printed by mp1.go for a command of fewer than two
words. -/
def invalidCommandMsg : List Char :=
  ("Invalid command. Please enter a command in the format: " ++
    "send [destinationID] [message]").data

/-- Error line printed by mp1.go for a send to an id absent from the
connections map (the timestamp-free text, parameterised by the id). -/
def noConnectionMsg (destinationID : Int) : List Char :=
  ("No connection to process ").data ++ itoa destinationID ++
    (". Please check the configuration.").data

/-- Confirmation line printed by mp1.go after scheduling a send (the
system-time suffix is outside the model). -/
def sentMsg (message : List Char) (destinationID : Int) : List Char :=
  ("Sent message: ").data ++ message ++ (" to process: ").data ++
    itoa destinationID

/-- Model of one iteration of handleUserInput of mp1.go on one console
line. The result is the list of console outputs, the list of
(connection, bytes) transmissions scheduled, and the connections map
after the iteration; none models the rand.Intn panic reached when a
send to a known id draws from an empty delay range. The connections map
is an association list from process id to an abstract connection
token. -/
def handleUserInput (selfID : Int) (minDelay maxDelay : Int) (seed : Nat)
    (connections : List (Int × Nat)) (line : List Char) :
    Option (List (List Char) × List (Nat × List Char) × List (Int × Nat)) :=
  let command := splitOnChar ' ' line
  if command.length < 2 then
    some ([invalidCommandMsg], [], connections)
  else if command.headD [] = sendWord then
    let destinationID := atoiOrZero (command.getD 1 [])
    let message := if command.length > 2 then joinSpace (command.drop 2) else []
    match List.lookup destinationID connections with
    | none => some ([noConnectionMsg destinationID], [], connections)
    | some conn =>
      match drawDelay minDelay maxDelay seed with
      | none => none
      | some _ =>
        some ([sentMsg message destinationID],
          [(conn, unicast_send selfID message)], connections)
  else
    some ([], [], connections)

end MP1

namespace Gob

/-- The ids that the startProcess of part_000 dials from process p:
every other process of the topology, regardless of id order. -/
def dialTargets (p : Process) (c : Config) : List Int :=
  (c.Processes.filter (fun q => q.ID ≠ p.ID)).map (fun q => q.ID)

/-- All ordered (initiator id, acceptor id) dial pairs performed
system-wide when every process of the topology runs the startProcess of
part_000; each dial creates one TCP connection used only from initiator
to acceptor. -/
def dials (c : Config) : List (Int × Int) :=
  c.Processes.flatMap (fun p => (dialTargets p c).map (fun q => (p.ID, q)))

/-- Keys of the connMap encoder map of process p in the startProcess of
part_000: one encoder per dialed peer. -/
def localConnIDs (p : Process) (c : Config) : List Int :=
  (c.Processes.filter (fun q => q.ID ≠ p.ID)).map (fun q => q.ID)

/-- Sequence of writes performed by the part_000 initiator on one
dialed connection during its lifetime: the client loop of startProcess
writes nothing at establishment (it only creates a gob encoder), so the
trace is exactly the records handleUserInput later sends. -/
def connectionTrace (selfID : Int) (messages : List (List Char)) :
    List WireWrite :=
  messages.map (WireWrite.record selfID)

/-- Model of the dial retry loop of the part_000 startProcess, started
at attempt index i with the given number of loop iterations remaining:
outcome j tells whether the j-th Dial call (0-indexed) succeeds. The
result is (success, number of Dial calls made, seconds slept between
and after attempts, in order); the loop sleeps i+1 seconds after the
failed attempt of index i, even a final one. -/
def dialAttempts (outcome : Nat → Bool) (i : Nat) :
    Nat → Bool × Nat × List Nat
  | 0 => (false, 0, [])
  | r + 1 =>
    if outcome i then (true, 1, [])
    else ((dialAttempts outcome (i + 1) r).1,
      (dialAttempts outcome (i + 1) r).2.1 + 1,
      (i + 1) :: (dialAttempts outcome (i + 1) r).2.2)

/-- The full dial loop of part_000: retries = 5 attempts starting at
index 0. A false first component means err is still non-nil afterwards,
which startProcess turns into log.Fatal. -/
def dialRetry (outcome : Nat → Bool) : Bool × Nat × List Nat :=
  dialAttempts outcome 0 5

/-- Error line printed by part_000 for a send whose destination id is
absent from the encoder map. -/
def invalidDestMsg (destinationID : Int) : List Char :=
  ("Invalid destination process ID: ").data ++ itoa destinationID

/-- Error line printed by part_000 for a command that is not a
well-formed send. -/
def invalidFormatMsg : List Char :=
  ("Invalid command format. Use: send [destinationID] [message]").data

/-- Confirmation line printed by part_000 after scheduling a send (the
system-time suffix is outside the model). -/
def sentMsg (message : List Char) (destinationID : Int) : List Char :=
  ("Sent message: ").data ++ message ++ (" to process ").data ++
    itoa destinationID

/-- Model of one iteration of handleUserInput of part_000 on one
console line. Transmissions are (connection, sourceID, message)
triples, matching the UnicastMessage record handed to the gob encoder;
none models the rand.Intn panic on an empty delay range. -/
def handleUserInput (selfID : Int) (minDelay maxDelay : Int) (seed : Nat)
    (connections : List (Int × Nat)) (line : List Char) :
    Option (List (List Char) × List (Nat × Int × List Char) × List (Int × Nat)) :=
  let command := splitOnChar ' ' line
  if command.headD [] = MP1.sendWord ∧ command.length > 1 then
    match atoi (command.getD 1 []) with
    | some destinationID =>
      match List.lookup destinationID connections with
      | some conn =>
        let message := joinSpace (command.drop 2)
        match drawDelay minDelay maxDelay seed with
        | none => none
        | some _ =>
          some ([sentMsg message destinationID],
            [(conn, selfID, message)], connections)
      | none => some ([invalidDestMsg destinationID], [], connections)
    | none => some ([invalidFormatMsg], [], connections)
  else
    some ([invalidFormatMsg], [], connections)

end Gob

/-- Number of elements of l below x. -/
def countLT (x : Int) (l : List Int) : Nat :=
  (l.filter (fun y => y < x)).length

/-- Number of elements of l above x. -/
def countGT (x : Int) (l : List Int) : Nat :=
  (l.filter (fun y => x < y)).length

/-- Number of elements of l different from x. -/
def countNE (x : Int) (l : List Int) : Nat :=
  (l.filter (fun y => y ≠ x)).length

/-- Total number of dials of the mp1.go mesh over a list of ids: each
id contributes one dial per lower id. -/
def sumLT (outer inner : List Int) : Nat :=
  (outer.map (fun y => countLT y inner)).sum

/-- Process 1 of the example topology of the configuration file. -/
def proc1 : Process := ⟨1, ("127.0.0.1").data, ("8001").data⟩

/-- Process 2 of the example topology of the configuration file. -/
def proc2 : Process := ⟨2, ("127.0.0.1").data, ("8002").data⟩

/-- Process 3 of the example topology of the configuration file. -/
def proc3 : Process := ⟨3, ("127.0.0.1").data, ("8003").data⟩

/-- A two-process topology used as concrete test input. -/
def pairConfig : Config := ⟨100, 200, [proc1, proc2]⟩

/-- The three-process topology of the worked example of the
specification. -/
def tripleConfig : Config := ⟨100, 200, [proc1, proc2, proc3]⟩

/-! ## Lemmas about the string models -/

theorem splitOnChar_ne_nil (sep : Char) (cs : List Char) :
    splitOnChar sep cs ≠ [] := by
  induction cs with
  | nil => simp [splitOnChar]
  | cons c rest ih =>
    by_cases hc : c = sep
    · simp [splitOnChar, hc]
    · simp only [splitOnChar, if_neg hc]
      rcases h : splitOnChar sep rest with _ | ⟨t, ts⟩
      · simp
      · simp

theorem splitOnChar_append_cons (sep : Char) (xs ys : List Char)
    (h : ∀ c ∈ xs, c ≠ sep) :
    splitOnChar sep (xs ++ sep :: ys) = xs :: splitOnChar sep ys := by
  induction xs with
  | nil => simp [splitOnChar]
  | cons x xs ih =>
    have hx : x ≠ sep := h x (by simp)
    have ih' := ih (fun c hc => h c (by simp [hc]))
    simp only [List.cons_append, splitOnChar, if_neg hx, List.append_eq, ih']

theorem dropCR_eq_self {cs : List Char} (h : cs.getLast? ≠ some '\r') :
    dropCR cs = cs := by
  unfold dropCR
  rw [if_neg h]

theorem scanLines_append_head (xs rest : List Char)
    (h : ∀ c ∈ xs, c ≠ '\n') :
    (scanLines (xs ++ '\n' :: rest)).head? = some (dropCR xs) := by
  simp only [scanLines]
  rw [splitOnChar_append_cons _ _ _ h]
  rcases hr : splitOnChar '\n' rest with _ | ⟨q, qs⟩
  · exact absurd hr (splitOnChar_ne_nil _ _)
  · rw [List.getLast?_cons_cons]
    by_cases hlast : (q :: qs).getLast? = some ([] : List Char)
    · rw [if_pos hlast]
      simp [List.dropLast]
    · rw [if_neg hlast]
      simp

theorem scanLines_single (line : List Char) (h : ∀ c ∈ line, c ≠ '\n') :
    scanLines (line ++ ['\n']) = [dropCR line] := by
  have he : line ++ ['\n'] = line ++ '\n' :: ([] : List Char) := rfl
  rw [he]
  simp only [scanLines]
  rw [splitOnChar_append_cons _ _ _ h]
  simp [splitOnChar, List.dropLast]

theorem digitChar_bounds {d : Nat} (h : d < 10) :
    '0' ≤ digitChar d ∧ digitChar d ≤ '9' := by
  interval_cases d <;> decide

theorem digToNat_digitChar {d : Nat} (h : d < 10) :
    digToNat (digitChar d) = some d := by
  interval_cases d <;> decide

theorem natToDigitsAux_fuel (f₁ f₂ n : Nat) (h₁ : n < f₁) (h₂ : n < f₂) :
    natToDigitsAux f₁ n = natToDigitsAux f₂ n := by
  induction f₁ generalizing f₂ n with
  | zero => omega
  | succ f ih =>
    cases f₂ with
    | zero => omega
    | succ g =>
      simp only [natToDigitsAux]
      by_cases h10 : n < 10
      · simp [h10]
      · simp only [if_neg h10]
        rw [ih g (n / 10) (by omega) (by omega)]

theorem natToDigits_step (n : Nat) :
    natToDigits n = if n < 10 then [digitChar n]
      else natToDigits (n / 10) ++ [digitChar (n % 10)] := by
  by_cases h10 : n < 10
  · simp [natToDigits, natToDigitsAux, h10]
  · rw [if_neg h10]
    show natToDigitsAux (n + 1) n = _
    simp only [natToDigitsAux, if_neg h10]
    congr 1
    exact natToDigitsAux_fuel n (n / 10 + 1) (n / 10) (by omega) (by omega)

theorem natToDigits_ne_nil (n : Nat) : natToDigits n ≠ [] := by
  rw [natToDigits_step]
  split <;> simp

theorem natToDigits_digits (n : Nat) :
    ∀ c ∈ natToDigits n, '0' ≤ c ∧ c ≤ '9' := by
  induction n using Nat.strong_induction_on with
  | _ n ih =>
    rw [natToDigits_step]
    split
    · next hlt =>
      intro c hc
      simp only [List.mem_singleton] at hc
      subst hc
      exact digitChar_bounds hlt
    · next hlt =>
      intro c hc
      rw [List.mem_append] at hc
      rcases hc with hc | hc
      · exact ih (n / 10) (Nat.div_lt_self (by omega) (by omega)) c hc
      · simp only [List.mem_singleton] at hc
        subst hc
        exact digitChar_bounds (Nat.mod_lt _ (by omega))

theorem parseNatCore_append (xs ys : List Char) (acc : Nat) :
    parseNatCore (xs ++ ys) acc =
      (parseNatCore xs acc).bind (fun v => parseNatCore ys v) := by
  induction xs generalizing acc with
  | nil => simp [parseNatCore]
  | cons c cs ih =>
    rcases h : digToNat c with _ | d
    · simp [parseNatCore, h]
    · simp [parseNatCore, h, ih]

theorem parseNatCore_natToDigits (n : Nat) :
    ∀ acc, parseNatCore (natToDigits n) acc =
      some (acc * 10 ^ (natToDigits n).length + n) := by
  induction n using Nat.strong_induction_on with
  | _ n ih =>
    intro acc
    rw [natToDigits_step]
    split
    · next hlt =>
      simp [parseNatCore, digToNat_digitChar hlt]
    · next hlt =>
      have hdiv : n / 10 < n := Nat.div_lt_self (by omega) (by omega)
      have hmodlt : n % 10 < 10 := Nat.mod_lt _ (by omega)
      rw [parseNatCore_append, ih (n / 10) hdiv acc]
      have hmod := Nat.div_add_mod n 10
      simp only [Option.some_bind, parseNatCore, digToNat_digitChar hmodlt,
        List.length_append, List.length_cons, List.length_nil]
      congr 1
      calc (acc * 10 ^ (natToDigits (n / 10)).length + n / 10) * 10 + n % 10
          = acc * (10 ^ (natToDigits (n / 10)).length * 10) +
              (10 * (n / 10) + n % 10) := by ring
        _ = acc * 10 ^ ((natToDigits (n / 10)).length + (0 + 1)) + n := by
            rw [hmod, ← pow_succ]

theorem parseNat_natToDigits (n : Nat) : parseNat (natToDigits n) = some n := by
  rcases h : natToDigits n with _ | ⟨c, cs⟩
  · exact absurd h (natToDigits_ne_nil n)
  · have hp := parseNatCore_natToDigits n 0
    rw [h] at hp
    simp only [parseNat, hp, Nat.zero_mul, Nat.zero_add]

theorem atoi_itoa (i : Int) : atoi (itoa i) = some i := by
  cases i with
  | ofNat n =>
    show atoi (natToDigits n) = some (Int.ofNat n)
    rcases h : natToDigits n with _ | ⟨c, cs⟩
    · exact absurd h (natToDigits_ne_nil n)
    · have hc : '0' ≤ c ∧ c ≤ '9' :=
        natToDigits_digits n c (by rw [h]; exact List.mem_cons_self c cs)

      have hc1 : ¬(c = '-') := by rintro rfl; revert hc; decide
      have hc2 : ¬(c = '+') := by rintro rfl; revert hc; decide
      have hp : parseNat (natToDigits n) = some n := parseNat_natToDigits n
      rw [h] at hp
      simp [atoi, hc1, hc2, hp]
  | negSucc n =>
    show atoi ('-' :: natToDigits (n + 1)) = some (Int.negSucc n)
    simp [atoi, parseNat_natToDigits (n + 1), Int.negSucc_eq]

theorem itoa_chars (i : Int) :
    ∀ c ∈ itoa i, c = '-' ∨ ('0' ≤ c ∧ c ≤ '9') := by
  cases i with
  | ofNat n => exact fun c hc => Or.inr (natToDigits_digits n c hc)
  | negSucc n =>
    intro c hc
    rcases List.mem_cons.mp hc with rfl | hc
    · exact Or.inl rfl
    · exact Or.inr (natToDigits_digits _ c hc)

theorem itoa_ne_char (i : Int) (x : Char) (hx1 : ¬(x = '-'))
    (hx2 : ¬('0' ≤ x ∧ x ≤ '9')) : ∀ c ∈ itoa i, c ≠ x := by
  intro c hc
  rcases itoa_chars i c hc with rfl | hd
  · rintro rfl; exact hx1 rfl
  · rintro rfl; exact hx2 hd

theorem itoa_getLast_ne_cr (i : Int) : (itoa i).getLast? ≠ some '\r' := by
  intro h
  have hmem : '\r' ∈ (itoa i).getLast? := Option.mem_def.mpr h
  rcases List.mem_getLast?_eq_getLast hmem with ⟨hne, heq⟩
  have hm : '\r' ∈ itoa i := by rw [heq]; exact List.getLast_mem hne
  exact itoa_ne_char i '\r' (by decide) (by decide) '\r' hm rfl

/-! ## Claim C3: codec round-trip -/

/-- Claim C3, counterexample: in the line-based codec of mp1.go, a text
containing a newline does not round-trip — encoding the Record
(1, a-newline-b) and decoding the bytes yields two records, neither
equal to the original. -/
theorem c3_roundtrip_refuted :
    MP1.unicast_receive (MP1.unicast_send 1 (("a\nb").data)) =
      [((("1").data), (("a").data)), ((("b").data), (("b").data))] ∧
    MP1.unicast_receive (MP1.unicast_send 1 (("a\nb").data)) ≠
      [(itoa 1, ("a\nb").data)] := by
  decide

/-- Claim C3 (corrected): for the line-based codec of mp1.go, encoding
a Record (senderID, text) and then decoding the resulting bytes yields
exactly one Record equal in senderID and text, for every text that
contains no newline and does not end with a carriage return — including
the empty string and text containing the space character used as the
field separator of the framing; the decoded sender field is the decimal
rendering of senderID and parses back to senderID. -/
theorem c3_line_codec_roundtrip (senderID : Int) (text : List Char)
    (h1 : '\n' ∉ text) (h2 : text.getLast? ≠ some '\r') :
    MP1.unicast_receive (MP1.unicast_send senderID text) =
      [(itoa senderID, text)] ∧ atoi (itoa senderID) = some senderID := by
  refine ⟨?_, atoi_itoa senderID⟩
  have hid_sp : ∀ c ∈ itoa senderID, c ≠ ' ' :=
    itoa_ne_char senderID ' ' (by decide) (by decide)
  have hid_nl : ∀ c ∈ itoa senderID, c ≠ '\n' :=
    itoa_ne_char senderID '\n' (by decide) (by decide)
  have hline_nl : ∀ c ∈ itoa senderID ++ ' ' :: text, c ≠ '\n' := by
    intro c hc
    rcases List.mem_append.mp hc with hc | hc
    · exact hid_nl c hc
    · rcases List.mem_cons.mp hc with rfl | hc
      · decide
      · exact fun he => h1 (he ▸ hc)
  have hsend : MP1.unicast_send senderID text =
      (itoa senderID ++ ' ' :: text) ++ ['\n'] := by
    simp [MP1.unicast_send, List.append_assoc]
  have hconsLast : (' ' :: text).getLast? ≠ some '\r' := by
    cases text with
    | nil => decide
    | cons t ts =>
      rw [List.getLast?_cons_cons]
      exact h2
  have hlast : (itoa senderID ++ ' ' :: text).getLast? ≠ some '\r' := by
    rw [List.getLast?_append]
    rcases hx : (' ' :: text).getLast? with _ | c
    · simp at hx
    · rw [Option.or_some]
      rw [hx] at hconsLast
      exact hconsLast
  rw [hsend]
  unfold MP1.unicast_receive
  rw [scanLines_single _ hline_nl, dropCR_eq_self hlast]
  simp only [List.map_cons, List.map_nil]
  have hdec : MP1.decodeLine (itoa senderID ++ ' ' :: text) =
      (itoa senderID, text) := by
    unfold MP1.decodeLine
    rw [splitOnChar_append_cons ' ' _ text hid_sp]
    simp only [List.headD_cons]
    have hpre : (itoa senderID ++ [' ']) ++ text = itoa senderID ++ ' ' :: text := by
      simp [List.append_assoc]
    unfold trimPrefix
    rw [← hpre, if_pos (List.isPrefixOf_iff_prefix.mpr (List.prefix_append _ _)),
      List.drop_left]
  rw [hdec]

/-- Claim C3, witness: a concrete round-trip through the line codec for
a text that contains the space field separator. -/
theorem c3_line_codec_roundtrip_witness :
    '\n' ∉ (("Hello, world!").data) ∧
    (("Hello, world!").data).getLast? ≠ some '\r' ∧
    (MP1.unicast_receive (MP1.unicast_send 1 (("Hello, world!").data)) =
      [(itoa 1, ("Hello, world!").data)] ∧ atoi (itoa 1) = some 1) :=
  ⟨by decide, by decide,
    c3_line_codec_roundtrip 1 (("Hello, world!").data) (by decide) (by decide)⟩

/-! ## Claim C4: delay draw range -/

/-- Claim C4 (confirmed): under the precondition minDelay < maxDelay,
the delay draw of handleUserInput succeeds and the drawn integer d
satisfies minDelay ≤ d < maxDelay, for every value of the random
draw. -/
theorem c4_delay_draw_in_range (minDelay maxDelay : Int) (seed : Nat)
    (h : minDelay < maxDelay) :
    ∃ d, drawDelay minDelay maxDelay seed = some d ∧
      minDelay ≤ d ∧ d < maxDelay := by
  have hpos : ¬(maxDelay - minDelay ≤ 0) := by omega
  refine ⟨minDelay + (seed : Int) % (maxDelay - minDelay), ?_, ?_, ?_⟩
  · unfold drawDelay randIntn
    rw [if_neg hpos]
    rfl
  · have := Int.emod_nonneg (seed : Int) (by omega : maxDelay - minDelay ≠ 0)
    omega
  · have := Int.emod_lt_of_pos (seed : Int) (by omega : 0 < maxDelay - minDelay)
    omega

/-- Claim C4, witness: the concrete delay range of the sample topology
with a concrete draw. -/
theorem c4_delay_draw_in_range_witness :
    (100 : Int) < 200 ∧
    (∃ d, drawDelay 100 200 7 = some d ∧ (100 : Int) ≤ d ∧ d < 200) :=
  ⟨by decide, c4_delay_draw_in_range 100 200 7 (by decide)⟩

/-! ## Claim C5: degenerate delay range -/

/-- Claim C5 (code bug): configuration validation does not reject
minDelay equal to maxDelay — ParseConfig accepts the degenerate range
without error — and the delay draw is not defined as a fixed value at
that boundary: every send to a known destination reaches rand.Intn
with argument 0, which panics at runtime, in both variants. -/
theorem c5_degenerate_range_panics :
    ParseConfig (("100 100\n1 127.0.0.1 8001\n2 127.0.0.1 8002\n").data) =
      some ⟨100, 100,
        [⟨1, ("127.0.0.1").data, ("8001").data⟩,
         ⟨2, ("127.0.0.1").data, ("8002").data⟩]⟩ ∧
    (∀ seed, drawDelay 100 100 seed = none) ∧
    MP1.handleUserInput 1 100 100 0 [(2, 0)] (("send 2 hi").data) = none ∧
    Gob.handleUserInput 1 100 100 0 [(2, 0)] (("send 2 hi").data) = none :=
  ⟨by decide, fun _ => rfl, by decide, rfl⟩

/-! ## Claim C9: malformed configuration -/

/-- Claim C9 (code bug): a malformed delay line whose fields are not
integers is not a fatal error — ParseConfig discards the Atoi errors
and returns a zero-delay configuration, so a run proceeds without a
valid topology; likewise a process line with a non-integer id is
silently given id 0. Only a line with a missing field stops the run,
and it does so by an index-out-of-range panic rather than a reported
error. -/
theorem c9_malformed_config_accepted :
    ParseConfig (("abc def\n1 127.0.0.1 8001\n").data) =
      some ⟨0, 0, [⟨1, ("127.0.0.1").data, ("8001").data⟩]⟩ ∧
    ParseConfig (("100 200\nx 127.0.0.1 8001\n").data) =
      some ⟨100, 200, [⟨0, ("127.0.0.1").data, ("8001").data⟩]⟩ ∧
    ParseConfig (("5\n").data) = none := by
  decide

/-! ## Claim C7: send to an unknown destination -/

/-- Claim C7 (confirmed): in both variants, a send command naming an
integer destination id with no channel in the local mapping performs
zero transmissions, prints exactly one error message, and returns the
connection mapping unchanged; the delay draw is never reached on this
path. -/
theorem c7_unknown_destination_no_effect
    (selfID minDelay maxDelay : Int) (seed : Nat)
    (connsM connsG : List (Int × Nat)) (line w : List Char)
    (ws : List (List Char)) (d : Int)
    (hsplit : splitOnChar ' ' line = MP1.sendWord :: w :: ws)
    (hw : atoi w = some d)
    (hM : List.lookup d connsM = none)
    (hG : List.lookup d connsG = none) :
    MP1.handleUserInput selfID minDelay maxDelay seed connsM line =
      some ([MP1.noConnectionMsg d], [], connsM) ∧
    Gob.handleUserInput selfID minDelay maxDelay seed connsG line =
      some ([Gob.invalidDestMsg d], [], connsG) := by
  have hlen : ¬((MP1.sendWord :: w :: ws).length < 2) := by
    simp only [List.length_cons]
    omega
  constructor
  · simp only [MP1.handleUserInput, hsplit, if_neg hlen, List.headD_cons,
      if_pos rfl, List.getD_cons_succ, List.getD_cons_zero, atoiOrZero, hw,
      Option.getD_some, hM]
    exact if_pos trivial
  · have hcond : (MP1.sendWord :: w :: ws).headD [] = MP1.sendWord ∧
        (MP1.sendWord :: w :: ws).length > 1 := by
      refine ⟨List.headD_cons, ?_⟩
      simp only [List.length_cons]
      omega
    simp only [Gob.handleUserInput, hsplit, if_pos hcond,
      List.getD_cons_succ, List.getD_cons_zero, hw, hG]

/-- Claim C7, witness: the scenario of the specification — send 9 hi at
a process whose mapping holds only peer 2. -/
theorem c7_unknown_destination_no_effect_witness :
    splitOnChar ' ' (("send 9 hi").data) =
      MP1.sendWord :: (("9").data) :: [("hi").data] ∧
    atoi (("9").data) = some 9 ∧
    List.lookup (9 : Int) [((2 : Int), (0 : Nat))] = none ∧
    (MP1.handleUserInput 1 100 200 3 [(2, 0)] (("send 9 hi").data) =
      some ([MP1.noConnectionMsg 9], [], [(2, 0)]) ∧
    Gob.handleUserInput 1 100 200 3 [(2, 0)] (("send 9 hi").data) =
      some ([Gob.invalidDestMsg 9], [], [(2, 0)])) :=
  ⟨by decide, by decide, by decide,
    c7_unknown_destination_no_effect 1 100 200 3 [(2, 0)] [(2, 0)]
      (("send 9 hi").data) (("9").data) [("hi").data] 9
      (by decide) (by decide) (by decide) (by decide)⟩

/-! ## Claim C10: non-integer destination in the line-text variant -/

/-- Claim C10 (confirmed): in the line-text variant, a console command
send X text where X is not a valid integer ignores the parse failure
and treats the destination as id 0: no syntax error is reported and the
command proceeds exactly as a lookup of destination 0, failing with the
no-connection error when 0 is absent from the mapping and sending to
the channel of id 0 when present. -/
theorem c10_bad_id_parsed_as_zero
    (selfID minDelay maxDelay : Int) (seed : Nat)
    (conns : List (Int × Nat)) (line w : List Char) (ws : List (List Char))
    (hsplit : splitOnChar ' ' line = MP1.sendWord :: w :: ws)
    (hw : atoi w = none) :
    (List.lookup (0 : Int) conns = none →
      MP1.handleUserInput selfID minDelay maxDelay seed conns line =
        some ([MP1.noConnectionMsg 0], [], conns)) ∧
    (∀ cn d, List.lookup (0 : Int) conns = some cn →
      drawDelay minDelay maxDelay seed = some d →
      MP1.handleUserInput selfID minDelay maxDelay seed conns line =
        some ([MP1.sentMsg (joinSpace ws) 0],
          [(cn, MP1.unicast_send selfID (joinSpace ws))], conns)) := by
  have hlen : ¬((MP1.sendWord :: w :: ws).length < 2) := by
    simp only [List.length_cons]
    omega
  have hmsg : (if (MP1.sendWord :: w :: ws).length > 2 then
      joinSpace ((MP1.sendWord :: w :: ws).drop 2) else []) = joinSpace ws := by
    cases ws with
    | nil => simp [joinSpace]
    | cons a as =>
      rw [if_pos (by simp only [List.length_cons]; omega)]
      rfl
  constructor
  · intro hnone
    simp only [MP1.handleUserInput, hsplit, if_neg hlen, List.headD_cons,
      if_pos rfl, List.getD_cons_succ, List.getD_cons_zero, atoiOrZero, hw,
      Option.getD_none, hnone]
    exact if_pos trivial
  · intro cn d hsome hdelay
    simp only [MP1.handleUserInput, hsplit, if_neg hlen, List.headD_cons,
      if_pos rfl, List.getD_cons_succ, List.getD_cons_zero, atoiOrZero, hw,
      Option.getD_none, hsome, hmsg, hdelay]
    exact if_pos trivial

/-- Claim C10, witness: send abc hi at a process whose mapping holds a
channel for id 0 — the message goes to the channel of id 0 — and at a
process without id 0 — the no-connection error names id 0. -/
theorem c10_bad_id_parsed_as_zero_witness :
    splitOnChar ' ' (("send abc hi").data) =
      MP1.sendWord :: (("abc").data) :: [("hi").data] ∧
    atoi (("abc").data) = none ∧
    (MP1.handleUserInput 1 100 200 3 [(0, 7)] (("send abc hi").data) =
      some ([MP1.sentMsg (("hi").data) 0],
        [(7, MP1.unicast_send 1 (("hi").data))], [(0, 7)]) ∧
    MP1.handleUserInput 1 100 200 3 [(2, 0)] (("send abc hi").data) =
      some ([MP1.noConnectionMsg 0], [], [(2, 0)])) := by
  refine ⟨by decide, by decide, ?_, ?_⟩
  · have h := (c10_bad_id_parsed_as_zero 1 100 200 3 [(0, 7)]
      (("send abc hi").data) (("abc").data) [("hi").data]
      (by decide) (by decide)).2 7 103 (by decide) (by decide)
    simpa using h
  · exact (c10_bad_id_parsed_as_zero 1 100 200 3 [(2, 0)]
      (("send abc hi").data) (("abc").data) [("hi").data]
      (by decide) (by decide)).1 (by decide)

/-! ## Claim C1: dial direction -/

theorem MP1_mem_dialTargets {c : Config} {p q : Process}
    (hq : q ∈ c.Processes) (hlt : q.ID < p.ID) :
    q.ID ∈ MP1.dialTargets p c :=
  List.mem_map.mpr ⟨q, List.mem_filter.mpr ⟨hq, by simpa using hlt⟩, rfl⟩

theorem MP1_not_mem_dialTargets {c : Config} {p q : Process}
    (hlt : q.ID < p.ID) : p.ID ∉ MP1.dialTargets q c := by
  intro hmem
  rcases List.mem_map.mp hmem with ⟨r, hr, hrid⟩
  have hrlt : r.ID < q.ID := by simpa using (List.mem_filter.mp hr).2
  rw [hrid] at hrlt
  omega

theorem Gob_mem_dialTargets {c : Config} {p q : Process}
    (hq : q ∈ c.Processes) (hne : q.ID ≠ p.ID) :
    q.ID ∈ Gob.dialTargets p c :=
  List.mem_map.mpr ⟨q, List.mem_filter.mpr ⟨hq, by simpa using hne⟩, rfl⟩

/-- Claim C1, counterexample: in the two-process topology of the
line-text variant, the lower-id process 1 does not initiate the
connection of the pair — instead the higher-id process 2 dials
process 1. -/
theorem c1_lower_id_initiates_refuted :
    ((1 : Int), (2 : Int)) ∉ MP1.dials pairConfig ∧
    ((2 : Int), (1 : Int)) ∈ MP1.dials pairConfig := by
  decide

/-- Claim C1 (corrected): in the line-text variant, for every pair of
distinct processes the process with the numerically higher id initiates
the outbound connection to the process with the lower id, and the
lower-id process never dials the higher one (it only listens); in the
gob variant both processes of a pair dial each other. -/
theorem c1_higher_id_initiates (c : Config) (p q : Process)
    (hp : p ∈ c.Processes) (hq : q ∈ c.Processes) (hlt : q.ID < p.ID) :
    q.ID ∈ MP1.dialTargets p c ∧ p.ID ∉ MP1.dialTargets q c ∧
    q.ID ∈ Gob.dialTargets p c ∧ p.ID ∈ Gob.dialTargets q c :=
  ⟨MP1_mem_dialTargets hq hlt, MP1_not_mem_dialTargets hlt,
    Gob_mem_dialTargets hq (by omega), Gob_mem_dialTargets hp (by omega)⟩

/-- Claim C1, witness: the amended direction rule at the two-process
topology. -/
theorem c1_higher_id_initiates_witness :
    proc2 ∈ pairConfig.Processes ∧ proc1 ∈ pairConfig.Processes ∧
    proc1.ID < proc2.ID ∧
    (proc1.ID ∈ MP1.dialTargets proc2 pairConfig ∧
     proc2.ID ∉ MP1.dialTargets proc1 pairConfig ∧
     proc1.ID ∈ Gob.dialTargets proc2 pairConfig ∧
     proc2.ID ∈ Gob.dialTargets proc1 pairConfig) :=
  ⟨by decide, by decide, by decide,
    c1_higher_id_initiates pairConfig proc2 proc1
      (by decide) (by decide) (by decide)⟩

/-! ## Claim C6: handshake -/

/-- Claim C6, counterexample: in the gob variant the initiator writes
no handshake — the first item written on a dialed connection is already
an encoded record, and no handshake line carrying the initiator id 1
is ever written. -/
theorem c6_handshake_refuted :
    (Gob.connectionTrace 1 [("hi").data]).head? =
      some (WireWrite.record 1 (("hi").data)) ∧
    WireWrite.handshakeLine 1 ∉ Gob.connectionTrace 1 [("hi").data] := by
  decide

/-- Claim C6 (corrected): in the line-text variant the very first write
on a dialed connection is the handshake line — the decimal id of the
initiator, newline-terminated — before any Record, and the acceptor
handshake read getOtherID recovers exactly the initiator id from the
byte stream of the connection; in the gob variant no handshake line is
ever written. -/
theorem c6_handshake_first_write (selfID : Int) (messages : List (List Char)) :
    (MP1.connectionTrace selfID messages).head? =
      some (WireWrite.handshakeLine selfID) ∧
    MP1.wireBytes (WireWrite.handshakeLine selfID) = itoa selfID ++ ['\n'] ∧
    MP1.getOtherID
      (((MP1.connectionTrace selfID messages).map MP1.wireBytes).flatten) =
      some selfID ∧
    WireWrite.handshakeLine selfID ∉ Gob.connectionTrace selfID messages := by
  refine ⟨rfl, rfl, ?_, ?_⟩
  · have hid_nl : ∀ c ∈ itoa selfID, c ≠ '\n' :=
      itoa_ne_char selfID '\n' (by decide) (by decide)
    have hflat : ((MP1.connectionTrace selfID messages).map MP1.wireBytes).flatten =
        itoa selfID ++ '\n' ::
          ((messages.map (WireWrite.record selfID)).map MP1.wireBytes).flatten := by
      simp [MP1.connectionTrace, MP1.wireBytes, List.append_assoc]
    rw [hflat]
    unfold MP1.getOtherID
    have hh := scanLines_append_head (itoa selfID)
      (((messages.map (WireWrite.record selfID)).map MP1.wireBytes).flatten) hid_nl
    rw [List.headD_eq_head?, hh, dropCR_eq_self (itoa_getLast_ne_cr selfID)]
    exact atoi_itoa selfID
  · intro hmem
    rcases List.mem_map.mp hmem with ⟨m, _, heq⟩
    cases heq

/-! ## Claim C8: dial retry -/

theorem dialAttempts_le (o : Nat → Bool) (r : Nat) :
    ∀ i, (Gob.dialAttempts o i r).2.1 ≤ r := by
  induction r with
  | zero => intro i; simp [Gob.dialAttempts]
  | succ r ih =>
    intro i
    by_cases h : o i = true
    · simp [Gob.dialAttempts, h]
    · simp only [Gob.dialAttempts, if_neg h]
      have := ih (i + 1)
      omega

theorem dialAttempts_fail_iff (o : Nat → Bool) (r : Nat) :
    ∀ i, (Gob.dialAttempts o i r).1 = false ↔
      ∀ j, j < r → o (i + j) = false := by
  induction r with
  | zero => intro i; simp [Gob.dialAttempts]
  | succ r ih =>
    intro i
    by_cases h : o i = true
    · simp only [Gob.dialAttempts, if_pos h]
      constructor
      · intro hf; cases hf
      · intro hall
        have h0 := hall 0 (by omega)
        rw [Nat.add_zero] at h0
        rw [h0] at h
        cases h
    · have ih' := ih (i + 1)
      simp only [Gob.dialAttempts, if_neg h]
      constructor
      · intro hf j hj
        cases j with
        | zero =>
          rw [Nat.add_zero]
          exact (Bool.not_eq_true (o i)) ▸ h
        | succ j' =>
          have hr := ih'.mp hf j' (by omega)
          have heq : i + 1 + j' = i + (j' + 1) := by omega
          rwa [heq] at hr
      · intro hall
        apply ih'.mpr
        intro j hj
        have hr := hall (j + 1) (by omega)
        have heq : i + (j + 1) = i + 1 + j := by omega
        rwa [heq] at hr

theorem dialAttempts_sleep (o : Nat → Bool) (r : Nat) :
    ∀ i k v, (Gob.dialAttempts o i r).2.2[k]? = some v → v = i + 1 + k := by
  induction r with
  | zero => intro i k v h; simp [Gob.dialAttempts] at h
  | succ r ih =>
    intro i k v h
    by_cases ho : o i = true
    · simp [Gob.dialAttempts, ho] at h
    · simp only [Gob.dialAttempts, if_neg ho] at h
      cases k with
      | zero =>
        rw [List.getElem?_cons_zero] at h
        injection h with h'
        omega
      | succ k' =>
        rw [List.getElem?_cons_succ] at h
        have := ih (i + 1) k' v h
        omega

theorem dialAttempts_sleep_count (o : Nat → Bool) (r : Nat) :
    ∀ i, (Gob.dialAttempts o i r).2.2.length +
      (if (Gob.dialAttempts o i r).1 then 1 else 0) =
      (Gob.dialAttempts o i r).2.1 := by
  induction r with
  | zero => intro i; simp [Gob.dialAttempts]
  | succ r ih =>
    intro i
    by_cases ho : o i = true
    · simp [Gob.dialAttempts, ho]
    · simp only [Gob.dialAttempts, if_neg ho, List.length_cons]
      have hr := ih (i + 1)
      cases hb : (Gob.dialAttempts o (i + 1) r).1 <;>
        simp [hb] at hr ⊢ <;> omega

/-- Claim C8, counterexample: in the line-text variant a failed first
dial is not retried — with an outcome whose first attempt fails and
whose second would succeed, mp1.go performs exactly one Dial call, no
backoff sleep, and aborts fatally, while the gob variant succeeds on
attempt two. -/
theorem c8_retry_refuted :
    MP1.dialOnce (fun i => decide (1 ≤ i)) = (false, 1, []) ∧
    (Gob.dialRetry (fun i => decide (1 ≤ i))).1 = true ∧
    (Gob.dialRetry (fun i => decide (1 ≤ i))).2.1 = 2 := by
  refine ⟨rfl, rfl, rfl⟩

/-- Claim C8 (corrected): in the gob variant a failed dial is retried
with at most 5 Dial attempts; the k-th backoff sleep lasts k seconds
(linearly increasing, one sleep after each failed attempt, including a
final one); the loop ends unsuccessfully — which startProcess turns
into a fatal abort — exactly when all 5 attempts fail. In the line-text
variant a single dial failure aborts fatally with one attempt and no
retry. -/
theorem c8_dial_retry_backoff (outcome : Nat → Bool) :
    (Gob.dialRetry outcome).2.1 ≤ 5 ∧
    ((Gob.dialRetry outcome).1 = false ↔ ∀ j, j < 5 → outcome j = false) ∧
    (∀ k v, (Gob.dialRetry outcome).2.2[k]? = some v → v = k + 1) ∧
    (Gob.dialRetry outcome).2.2.length +
      (if (Gob.dialRetry outcome).1 then 1 else 0) =
      (Gob.dialRetry outcome).2.1 ∧
    (outcome 0 = false → MP1.dialOnce outcome = (false, 1, [])) := by
  refine ⟨dialAttempts_le outcome 5 0, ?_, ?_,
    dialAttempts_sleep_count outcome 5 0, ?_⟩
  · have h := dialAttempts_fail_iff outcome 5 0
    simpa using h
  · intro k v h
    have := dialAttempts_sleep outcome 5 0 k v h
    omega
  · intro h0
    simp [MP1.dialOnce, h0]

/-- Claim C8, witness: the amended retry behaviour at the outcome whose
attempts all fail. -/
theorem c8_dial_retry_backoff_witness :
    (Gob.dialRetry (fun _ => false)).2.1 ≤ 5 ∧
    MP1.dialOnce (fun _ => false) = (false, 1, []) :=
  ⟨(c8_dial_retry_backoff (fun _ => false)).1,
    (c8_dial_retry_backoff (fun _ => false)).2.2.2.2 rfl⟩

/-! ## Claim C2: channel counts -/

theorem countLT_cons (x y : Int) (l : List Int) :
    countLT x (y :: l) = (if y < x then 1 else 0) + countLT x l := by
  by_cases h : y < x <;>
    simp [countLT, List.filter_cons, h, Nat.add_comm]

theorem countGT_cons (x y : Int) (l : List Int) :
    countGT x (y :: l) = (if x < y then 1 else 0) + countGT x l := by
  by_cases h : x < y <;>
    simp [countGT, List.filter_cons, h, Nat.add_comm]

theorem countNE_cons (x y : Int) (l : List Int) :
    countNE x (y :: l) = (if y ≠ x then 1 else 0) + countNE x l := by
  by_cases h : y ≠ x <;>
    simp [countNE, List.filter_cons, h, Nat.add_comm]

theorem countLT_add_countGT {x : Int} {l : List Int} (h : x ∉ l) :
    countLT x l + countGT x l = l.length := by
  induction l with
  | nil => rfl
  | cons y ys ih =>
    have hy : ¬(y = x) := fun he => h (he ▸ List.mem_cons_self y ys)
    have hx : x ∉ ys := fun hm => h (List.mem_cons_of_mem y hm)
    rw [countLT_cons, countGT_cons, List.length_cons]
    have hys := ih hx
    rcases lt_trichotomy y x with hlt | heq | hgt
    · rw [if_pos hlt, if_neg (by omega)]
      omega
    · exact absurd heq hy
    · rw [if_neg (by omega), if_pos hgt]
      omega

theorem countLT_add_countGT_mem {x : Int} {l : List Int}
    (hnd : l.Nodup) (hm : x ∈ l) :
    countLT x l + countGT x l + 1 = l.length := by
  induction l with
  | nil => cases hm
  | cons y ys ih =>
    have hy : y ∉ ys := (List.nodup_cons.mp hnd).1
    have hys : ys.Nodup := (List.nodup_cons.mp hnd).2
    rw [countLT_cons, countGT_cons, List.length_cons]
    rcases List.mem_cons.mp hm with rfl | hm'
    · rw [if_neg (lt_irrefl x)]
      have := countLT_add_countGT hy
      omega
    · have hne : ¬(y = x) := fun he => hy (he ▸ hm')
      have := ih hys hm'
      rcases lt_trichotomy y x with hlt | heq | hgt
      · rw [if_pos hlt, if_neg (by omega)]
        omega
      · exact absurd heq hne
      · rw [if_neg (by omega), if_pos hgt]
        omega

theorem countNE_eq (x : Int) (l : List Int) :
    countNE x l = countLT x l + countGT x l := by
  induction l with
  | nil => rfl
  | cons y ys ih =>
    rw [countNE_cons, countLT_cons, countGT_cons]
    rcases lt_trichotomy y x with hlt | heq | hgt
    · rw [if_pos (by omega), if_pos hlt, if_neg (by omega)]
      omega
    · subst heq
      rw [if_neg (by simp), if_neg (lt_irrefl y)]
      omega
    · rw [if_pos (by omega), if_neg (by omega), if_pos hgt]
      omega

theorem sumLT_cons_outer (y : Int) (outer inner : List Int) :
    sumLT (y :: outer) inner = countLT y inner + sumLT outer inner := by
  simp [sumLT]

theorem sumLT_inner_cons (x : Int) (outer inner : List Int) :
    sumLT outer (x :: inner) = sumLT outer inner + countGT x outer := by
  induction outer with
  | nil => rfl
  | cons y ys ih =>
    rw [sumLT_cons_outer, sumLT_cons_outer, ih, countLT_cons, countGT_cons]
    by_cases h : x < y
    · rw [if_pos h]
      omega
    · rw [if_neg h]
      omega

theorem sumLT_self (l : List Int) (h : l.Nodup) :
    2 * sumLT l l = l.length * (l.length - 1) := by
  induction l with
  | nil => rfl
  | cons x ys ih =>
    have hx : x ∉ ys := (List.nodup_cons.mp h).1
    have hys : ys.Nodup := (List.nodup_cons.mp h).2
    rw [sumLT_cons_outer, sumLT_inner_cons, countLT_cons,
      if_neg (lt_irrefl x), List.length_cons]
    have h1 := countLT_add_countGT hx
    have h2 := ih hys
    have h3 : (ys.length + 1) * (ys.length + 1 - 1) =
        ys.length * (ys.length - 1) + 2 * ys.length := by
      cases hn : ys.length with
      | zero => rfl
      | succ m =>
        simp only [Nat.succ_sub_one]
        ring
    rw [h3, ← h2]
    omega

theorem sum_map_const {α : Type} (l : List α) (f : α → Nat) (m : Nat)
    (h : ∀ y ∈ l, f y = m) : (l.map f).sum = l.length * m := by
  induction l with
  | nil => simp
  | cons y ys ih =>
    rw [List.map_cons, List.sum_cons, h y (List.mem_cons_self y ys),
      ih (fun z hz => h z (List.mem_cons_of_mem y hz)), List.length_cons,
      Nat.succ_mul]
    omega

theorem filter_ID_length (l : List Process) (P : Int → Bool) :
    (l.filter (fun q => P q.ID)).length = ((l.map Process.ID).filter P).length := by
  rw [List.filter_map, List.length_map]
  rfl

theorem MP1_dialTargets_length (p : Process) (c : Config) :
    (MP1.dialTargets p c).length = countLT p.ID (c.Processes.map Process.ID) := by
  rw [MP1.dialTargets, List.length_map, countLT]
  exact filter_ID_length c.Processes (fun y => decide (y < p.ID))

theorem Gob_dialTargets_length (p : Process) (c : Config) :
    (Gob.dialTargets p c).length = countNE p.ID (c.Processes.map Process.ID) := by
  rw [Gob.dialTargets, List.length_map, countNE]
  exact filter_ID_length c.Processes (fun y => decide (y ≠ p.ID))

theorem MP1_dials_length (c : Config)
    (h : (c.Processes.map Process.ID).Nodup) :
    2 * (MP1.dials c).length = c.Processes.length * (c.Processes.length - 1) := by
  have hlen : (MP1.dials c).length =
      sumLT (c.Processes.map Process.ID) (c.Processes.map Process.ID) := by
    rw [MP1.dials, List.length_flatMap, sumLT, List.map_map]
    apply congrArg List.sum
    apply List.map_congr_left
    intro p _
    simp only [Function.comp_apply, List.length_map]
    exact MP1_dialTargets_length p c
  rw [hlen, sumLT_self _ h, List.length_map]

theorem Gob_dials_length (c : Config)
    (h : (c.Processes.map Process.ID).Nodup) :
    (Gob.dials c).length = c.Processes.length * (c.Processes.length - 1) := by
  rw [Gob.dials, List.length_flatMap]
  have hconst : ∀ p ∈ c.Processes,
      (List.length ∘ fun p => (Gob.dialTargets p c).map (fun q => (p.ID, q))) p =
      c.Processes.length - 1 := by
    intro p hp
    simp only [Function.comp_apply, List.length_map]
    rw [Gob_dialTargets_length, countNE_eq]
    have hmem : p.ID ∈ c.Processes.map Process.ID := List.mem_map.mpr ⟨p, hp, rfl⟩
    have h2 := countLT_add_countGT_mem h hmem
    rw [List.length_map] at h2
    omega
  rw [sum_map_const c.Processes _ _ hconst]

theorem MP1_localConnIDs_length (c : Config) (p : Process)
    (h : (c.Processes.map Process.ID).Nodup) (hp : p ∈ c.Processes) :
    (MP1.localConnIDs p c).length = c.Processes.length - 1 := by
  rw [MP1.localConnIDs, List.length_append, List.length_map, List.length_map,
    filter_ID_length c.Processes (fun y => decide (y < p.ID)),
    filter_ID_length c.Processes (fun y => decide (p.ID < y))]
  have hmem : p.ID ∈ c.Processes.map Process.ID := List.mem_map.mpr ⟨p, hp, rfl⟩
  have h2 := countLT_add_countGT_mem h hmem
  unfold countLT countGT at h2
  rw [List.length_map] at h2
  omega

theorem Gob_localConnIDs_length (c : Config) (p : Process)
    (h : (c.Processes.map Process.ID).Nodup) (hp : p ∈ c.Processes) :
    (Gob.localConnIDs p c).length = c.Processes.length - 1 := by
  rw [Gob.localConnIDs, List.length_map,
    filter_ID_length c.Processes (fun y => decide (y ≠ p.ID))]
  have hmem : p.ID ∈ c.Processes.map Process.ID := List.mem_map.mpr ⟨p, hp, rfl⟩
  have h2 := countLT_add_countGT_mem h hmem
  have h3 := countNE_eq p.ID (c.Processes.map Process.ID)
  unfold countNE at h3
  rw [List.length_map] at h2
  omega

theorem MP1_mem_dials {c : Config} {p q : Process} (hp : p ∈ c.Processes)
    (hq : q ∈ c.Processes) (hlt : q.ID < p.ID) :
    (p.ID, q.ID) ∈ MP1.dials c :=
  List.mem_flatMap.mpr ⟨p, hp,
    List.mem_map.mpr ⟨q.ID, MP1_mem_dialTargets hq hlt, rfl⟩⟩

theorem MP1_not_mem_dials_rev {c : Config} {p q : Process}
    (hlt : q.ID < p.ID) : (q.ID, p.ID) ∉ MP1.dials c := by
  intro hmem
  rcases List.mem_flatMap.mp hmem with ⟨r, _, hmem2⟩
  rcases List.mem_map.mp hmem2 with ⟨s, hs, heq⟩
  have h1 : r.ID = q.ID := congrArg Prod.fst heq
  have h2 : s = p.ID := congrArg Prod.snd heq
  rcases List.mem_map.mp hs with ⟨t, ht, hts⟩
  have hlt2 : t.ID < r.ID := by simpa using (List.mem_filter.mp ht).2
  rw [hts, h2, h1] at hlt2
  omega

theorem MP1_dials_nodup (c : Config)
    (h : (c.Processes.map Process.ID).Nodup) : (MP1.dials c).Nodup := by
  rw [MP1.dials, List.nodup_flatMap]
  constructor
  · intro p _
    apply List.Nodup.map
    · intro a b hab
      simpa using congrArg Prod.snd hab
    · rw [MP1.dialTargets]
      exact List.Nodup.sublist
        ((List.filter_sublist c.Processes).map Process.ID) h
  · have hpw : c.Processes.Pairwise (fun a b => a.ID ≠ b.ID) :=
      List.pairwise_map.mp h
    apply List.Pairwise.imp ?_ hpw
    intro a b hab
    intro x hxa hxb
    rcases List.mem_map.mp hxa with ⟨qa, _, rfl⟩
    rcases List.mem_map.mp hxb with ⟨qb, _, heq⟩
    exact hab (congrArg Prod.fst heq).symm

/-- Claim C2, counterexample: in the gob variant with two processes,
two connections exist system-wide — one per ordered pair, each carrying
one direction only — not the claimed 2*(2-1)/2 = 1. -/
theorem c2_channel_count_refuted :
    (Gob.dials pairConfig).length = 2 ∧
    (Gob.dials pairConfig).length ≠
      pairConfig.Processes.length * (pairConfig.Processes.length - 1) / 2 := by
  decide

/-- Claim C2 (corrected): for a topology of K processes with distinct
ids, in the line-text variant mesh establishment yields exactly
K*(K-1)/2 distinct channels system-wide — exactly one channel per
unordered pair of distinct processes, used for both directions — and
each local connections map has exactly K-1 entries; in the gob variant
each process dials every other, giving K*(K-1) one-directional
connections system-wide (two per unordered pair) while each local
encoder map still has K-1 entries. -/
theorem c2_mesh_channel_counts (c : Config) (p q : Process)
    (hnd : (c.Processes.map Process.ID).Nodup)
    (hp : p ∈ c.Processes) (hq : q ∈ c.Processes) (hlt : q.ID < p.ID) :
    2 * (MP1.dials c).length = c.Processes.length * (c.Processes.length - 1) ∧
    (MP1.dials c).length = c.Processes.length * (c.Processes.length - 1) / 2 ∧
    (MP1.dials c).Nodup ∧
    (p.ID, q.ID) ∈ MP1.dials c ∧
    (q.ID, p.ID) ∉ MP1.dials c ∧
    (∀ r ∈ c.Processes,
      (MP1.localConnIDs r c).length = c.Processes.length - 1) ∧
    (Gob.dials c).length = c.Processes.length * (c.Processes.length - 1) ∧
    (∀ r ∈ c.Processes,
      (Gob.localConnIDs r c).length = c.Processes.length - 1) := by
  have hdl := MP1_dials_length c hnd
  refine ⟨hdl, by omega, MP1_dials_nodup c hnd,
    MP1_mem_dials hp hq hlt,
    MP1_not_mem_dials_rev hlt,
    fun r hr => MP1_localConnIDs_length c r hnd hr,
    Gob_dials_length c hnd,
    fun r hr => Gob_localConnIDs_length c r hnd hr⟩

/-- Claim C2, witness: the amended channel counts at the three-process
topology of the specification example, including the local-mapping size
of the lowest-id process proc1 — whose line-text entries all come from
the accept path — obtained from the per-process conjunct of the
theorem. -/
theorem c2_mesh_channel_counts_witness :
    (tripleConfig.Processes.map Process.ID).Nodup ∧
    proc2 ∈ tripleConfig.Processes ∧ proc1 ∈ tripleConfig.Processes ∧
    proc1.ID < proc2.ID ∧
    (2 * (MP1.dials tripleConfig).length =
      tripleConfig.Processes.length * (tripleConfig.Processes.length - 1) ∧
    (MP1.dials tripleConfig).length =
      tripleConfig.Processes.length * (tripleConfig.Processes.length - 1) / 2 ∧
    (MP1.dials tripleConfig).Nodup ∧
    (proc2.ID, proc1.ID) ∈ MP1.dials tripleConfig ∧
    (proc1.ID, proc2.ID) ∉ MP1.dials tripleConfig ∧
    (∀ r ∈ tripleConfig.Processes,
      (MP1.localConnIDs r tripleConfig).length =
        tripleConfig.Processes.length - 1) ∧
    (Gob.dials tripleConfig).length =
      tripleConfig.Processes.length * (tripleConfig.Processes.length - 1) ∧
    (∀ r ∈ tripleConfig.Processes,
      (Gob.localConnIDs r tripleConfig).length =
        tripleConfig.Processes.length - 1)) ∧
    (MP1.localConnIDs proc1 tripleConfig).length = 2 ∧
    (Gob.localConnIDs proc1 tripleConfig).length = 2 := by
  have h := c2_mesh_channel_counts tripleConfig proc2 proc1
    (by decide) (by decide) (by decide) (by decide)
  refine ⟨by decide, by decide, by decide, by decide, h, ?_, ?_⟩
  · rw [h.2.2.2.2.2.1 proc1 (by decide)]
    decide
  · rw [h.2.2.2.2.2.2.2 proc1 (by decide)]
    decide
